import Mathlib

/-!
Verification development for the blocky identicon generator
(source: src/blocky.ts).

The TypeScript source is shallowly embedded as follows:
* JavaScript numbers are modelled as exact values: integer-valued
  computations as `Int` / `Nat`, fractional computations as `Rat`.
  (All quantities appearing in the program stay far below 2^53, so
  IEEE doubles represent the integer arithmetic exactly; the decimal
  literals 2.3 / 0.6 / 0.4 are modelled as the exact rationals they
  denote.)
* JavaScript 32-bit operators (`<<`, `>>`, `>>>`, `^`) are modelled by
  explicit `mod 2^32` arithmetic on `Int` (`toInt32` / `toUint32`),
  never by fixed-width machine types.
* The module-level mutable globals of the source (`randseed`,
  `defaultOptions`) are modelled by explicit state passing: each
  function takes the relevant state and returns the updated state.
* The PNG encoder (`pngjs`) is an external collaborator; the embedding
  models the raw RGBA sample buffer that the source writes into
  `png.data` (a zero-initialised buffer of width*height*4 bytes, where
  an out-of-range index assignment is a no-op and stored values are
  reduced mod 256, matching Node Buffer element assignment).
* Strings are modelled as their lists of UTF-16 code units
  (`seed.charCodeAt(i)` order).
-/

/-- ToInt32: reduce an exact integer to the signed 32-bit value with the
same residue mod 2^32, as JavaScript bitwise operators do to their
operands. -/
def toInt32 (x : ℤ) : ℤ :=
  (x + 2147483648) % 4294967296 - 2147483648

/-- ToUint32: the unsigned 32-bit value with the same residue mod 2^32
(JavaScript `x >>> 0`). -/
def toUint32 (x : ℤ) : ℕ :=
  (x % 4294967296).toNat

/-- JavaScript `x ^ y` on numbers: both operands are converted to 32-bit
and the bitwise xor is returned as a signed 32-bit value. -/
def jsXor (a b : ℤ) : ℤ :=
  toInt32 ((toUint32 a ^^^ toUint32 b : ℕ) : ℤ)

/-- JavaScript `x << k`: multiply by 2^k and wrap to signed 32-bit. -/
def jsShl (a : ℤ) (k : ℕ) : ℤ :=
  toInt32 (a * 2 ^ k)

/-- JavaScript `x >> k`: sign-propagating (arithmetic) right shift of the
32-bit value, i.e. floor division of the signed value by 2^k.  On `Int`
the `/` operator is Euclidean division, which is floor division for a
positive divisor. -/
def jsShr (a : ℤ) (k : ℕ) : ℤ :=
  toInt32 a / 2 ^ k

theorem toUint32_lt (x : ℤ) : toUint32 x < 4294967296 := by
  unfold toUint32; omega

theorem toUint32_toInt32 (x : ℤ) : toUint32 (toInt32 x) = toUint32 x := by
  unfold toUint32 toInt32; omega

theorem toUint32_natCast (n : ℕ) (h : n < 4294967296) : toUint32 (n : ℤ) = n := by
  unfold toUint32; omega

theorem toUint32_jsXor (a b : ℤ) :
    toUint32 (jsXor a b) = toUint32 a ^^^ toUint32 b := by
  unfold jsXor
  rw [toUint32_toInt32, toUint32_natCast]
  have h : (4294967296 : ℕ) = 2 ^ 32 := by norm_num
  rw [h]
  exact Nat.xor_lt_two_pow (h ▸ toUint32_lt a) (h ▸ toUint32_lt b)

/-- The high bit (bit 31) of a value below 2^32 is set exactly when the
value is at least 2^31. -/
theorem testBit31_iff (u : ℕ) (h : u < 4294967296) :
    u.testBit 31 = true ↔ 2147483648 ≤ u := by
  rw [Nat.testBit_to_div_mod]
  constructor
  · intro hd
    have := of_decide_eq_true hd
    omega
  · intro hu
    apply decide_eq_true
    omega

/-- Xor flips the high bit iff exactly one operand has it set. -/
theorem hibit_xor (u v : ℕ) (hu : u < 4294967296) (hv : v < 4294967296) :
    (2147483648 ≤ (u ^^^ v) ↔ ¬ (2147483648 ≤ u ↔ 2147483648 ≤ v)) := by
  have hxy : u ^^^ v < 4294967296 := by
    have h : (4294967296 : ℕ) = 2 ^ 32 := by norm_num
    rw [h]; exact Nat.xor_lt_two_pow (h ▸ hu) (h ▸ hv)
  have h1 := testBit31_iff u hu
  have h2 := testBit31_iff v hv
  have h3 := testBit31_iff (u ^^^ v) hxy
  have hx := Nat.testBit_xor u v 31
  rw [← h1, ← h2, ← h3, hx]
  cases hbu : u.testBit 31 <;> cases hbv : v.testBit 31 <;> simp

/-- An arithmetic right shift by 19 preserves the sign, hence the high bit
of the unsigned reading. -/
theorem hibit_jsShr19 (a : ℤ) :
    (2147483648 ≤ toUint32 (jsShr a 19) ↔ 2147483648 ≤ toUint32 a) := by
  unfold jsShr toInt32 toUint32
  norm_num
  omega

/-- An arithmetic right shift by 8 preserves the sign, hence the high bit
of the unsigned reading. -/
theorem hibit_jsShr8 (a : ℤ) :
    (2147483648 ≤ toUint32 (jsShr a 8) ↔ 2147483648 ≤ toUint32 a) := by
  unfold jsShr toInt32 toUint32
  norm_num
  omega

/-- Engine state: the four 32-bit lanes of the source's module-level
`randseed` array.  The source stores the results of `(x << 5) - x + c`
without re-wrapping, so lanes are arbitrary exact integers here; every
consumer re-wraps via the 32-bit operators. -/
structure RandSeed where
  s0 : ℤ
  s1 : ℤ
  s2 : ℤ
  s3 : ℤ
deriving DecidableEq, Repr

/-- The all-zero initial value of `randseed`. -/
def initRandSeed : RandSeed := ⟨0, 0, 0, 0⟩

/-- One character of seed folding:
`randseed[i%4] = (randseed[i%4] << 5) - randseed[i%4] + code`. -/
def seedStep (a : ℤ) (c : ℕ) : ℤ :=
  jsShl a 5 - a + (c : ℤ)

/-- Fold character `c` at string position `i` into lane `i % 4`. -/
def foldSeedChar (st : RandSeed) (i : ℕ) (c : ℕ) : RandSeed :=
  if i % 4 = 0 then { st with s0 := seedStep st.s0 c }
  else if i % 4 = 1 then { st with s1 := seedStep st.s1 c }
  else if i % 4 = 2 then { st with s2 := seedStep st.s2 c }
  else { st with s3 := seedStep st.s3 c }

/-- The `for` loop of `createRandSeed`, carrying the character index. -/
def seedFoldAux : ℕ → List ℕ → RandSeed → RandSeed
  | _, [], st => st
  | i, c :: cs, st => seedFoldAux (i + 1) cs (foldSeedChar st i c)

/-- createRandSeed: folds the character codes of the seed string into the
current engine state (the lanes are NOT reset first). -/
def createRandSeed (codes : List ℕ) (st : RandSeed) : RandSeed :=
  seedFoldAux 0 codes st

/-- One xorshift step of `rand()`: `t = s0 ^ (s0 << 11)`, lanes shift
0←1←2←3, and the new lane 3 is `s3 ^ (s3 >> 19) ^ t ^ (t >> 8)`. -/
def randStep (st : RandSeed) : RandSeed :=
  let t := jsXor st.s0 (jsShl st.s0 11)
  { s0 := st.s1
    s1 := st.s2
    s2 := st.s3
    s3 := jsXor (jsXor (jsXor st.s3 (jsShr st.s3 19)) t) (jsShr t 8) }

/-- The value returned by `rand()`:
`(randseed[3] >>> 0) / ((1 << 31) >>> 0)` computed on the updated state. -/
def randVal (st : RandSeed) : ℚ :=
  (toUint32 (randStep st).s3 : ℚ) / 2147483648

/-- rand: returns the drawn value together with the updated engine state. -/
def rand (st : RandSeed) : ℚ × RandSeed :=
  (randVal st, randStep st)

set_option maxRecDepth 4000 in
/-- The new lane 3 produced by a xorshift step always has its high bit
clear: `w ^ (w >> 19)` and `t ^ (t >> 8)` each cancel the sign bit,
because an arithmetic shift preserves it. -/
theorem randStep_s3_lt (st : RandSeed) :
    toUint32 (randStep st).s3 < 2147483648 := by
  unfold randStep
  set t := jsXor st.s0 (jsShl st.s0 11) with ht
  simp only
  rw [toUint32_jsXor, toUint32_jsXor, toUint32_jsXor]
  set uw := toUint32 st.s3
  set uws := toUint32 (jsShr st.s3 19)
  set ut := toUint32 t
  set uts := toUint32 (jsShr t 8)
  have hw : uw < 4294967296 := toUint32_lt _
  have hws : uws < 4294967296 := toUint32_lt _
  have htl : ut < 4294967296 := toUint32_lt _
  have hts : uts < 4294967296 := toUint32_lt _
  have h1 : uw ^^^ uws < 4294967296 := by
    have h : (4294967296 : ℕ) = 2 ^ 32 := by norm_num
    rw [h]; exact Nat.xor_lt_two_pow (h ▸ hw) (h ▸ hws)
  have h2 : (uw ^^^ uws) ^^^ ut < 4294967296 := by
    have h : (4294967296 : ℕ) = 2 ^ 32 := by norm_num
    rw [h]; exact Nat.xor_lt_two_pow (h ▸ h1) (h ▸ htl)
  have h3 : ((uw ^^^ uws) ^^^ ut) ^^^ uts < 4294967296 := by
    have h : (4294967296 : ℕ) = 2 ^ 32 := by norm_num
    rw [h]; exact Nat.xor_lt_two_pow (h ▸ h2) (h ▸ hts)
  have e1 := hibit_xor uw uws hw hws
  have e2 := hibit_xor (uw ^^^ uws) ut h1 htl
  have e3 := hibit_xor ((uw ^^^ uws) ^^^ ut) uts h2 hts
  have hsw : (2147483648 ≤ uws ↔ 2147483648 ≤ uw) := hibit_jsShr19 st.s3
  have hst : (2147483648 ≤ uts ↔ 2147483648 ≤ ut) := hibit_jsShr8 t
  have hx1 : ¬ 2147483648 ≤ (uw ^^^ uws) := by
    rw [e1]; exact not_not_intro hsw.symm
  have hx2 : (2147483648 ≤ ((uw ^^^ uws) ^^^ ut)) ↔ (2147483648 ≤ ut) := by
    rw [e2]
    constructor
    · intro hne
      by_contra hQ
      exact hne (iff_of_false hx1 hQ)
    · intro hQ hiff
      exact hx1 (hiff.mpr hQ)
  have hx3 : ¬ 2147483648 ≤ (((uw ^^^ uws) ^^^ ut) ^^^ uts) := by
    rw [e3]
    exact not_not_intro (hx2.trans hst.symm)
  omega

/-- Helper: `rand()` is nonnegative. -/
theorem randVal_nonneg (st : RandSeed) : 0 ≤ randVal st := by
  unfold randVal
  positivity

/-- Helper: `rand()` is strictly below 1 for every engine state. -/
theorem randVal_lt_one (st : RandSeed) : randVal st < 1 := by
  unfold randVal
  rw [div_lt_one (by norm_num)]
  exact_mod_cast randStep_s3_lt st

/-- JavaScript `Math.round`: round half away from zero toward positive
infinity, i.e. `floor(x + 1/2)`. -/
def jsRound (x : ℚ) : ℤ :=
  ⌊x + 1 / 2⌋

/-- The inner `hue2rgb` helper of `hslToRgb`, with its two sequential
normalisation `if`s and the three-way piecewise interpolation. -/
def hue2rgb (p q t0 : ℚ) : ℚ :=
  let t1 := if t0 < 0 then t0 + 1 else t0
  let t := if t1 > 1 then t1 - 1 else t1
  if t < 1 / 6 then p + (q - p) * 6 * t
  else if t < 1 / 2 then q
  else if t < 2 / 3 then p + (q - p) * (2 / 3 - t) * 6
  else p

/-- hslToRgb: standard piecewise HSL to RGB conversion with the
achromatic short-circuit, each channel rounded via `Math.round(x*255)`. -/
def hslToRgb (h s l : ℚ) : ℤ × ℤ × ℤ :=
  let rgb :=
    if s = 0 then (l, l, l)
    else
      let q := if l < 1 / 2 then l * (1 + s) else l + s - l * s
      let p := 2 * l - q
      (hue2rgb p q (h + 1 / 3), hue2rgb p q h, hue2rgb p q (h - 1 / 3))
  (jsRound (rgb.1 * 255), jsRound (rgb.2.1 * 255), jsRound (rgb.2.2 * 255))

/-- createHSL: draws hue, saturation and lightness from the engine, in
exactly this order (1 hue draw, 1 saturation draw, 4 lightness draws). -/
def createHSL (st : RandSeed) : (ℚ × ℚ × ℚ) × RandSeed :=
  let (h, st1) := rand st
  let (sr, st2) := rand st1
  let s := sr * (6 / 10) + 4 / 10
  let (l1, st3) := rand st2
  let (l2, st4) := rand st3
  let (l3, st5) := rand st4
  let (l4, st6) := rand st5
  let l := (l1 + l2 + l3 + l4) / 4
  ((h, s, l), st6)

/-- The color derivation step of `createBuffer`:
`const [h, s, l] = createHSL(); const rgb = hslToRgb(h, s, l)`. -/
def createIconColor (st : RandSeed) : (ℤ × ℤ × ℤ) × RandSeed :=
  let (hsl, st') := createHSL st
  (hslToRgb hsl.1 hsl.2.1 hsl.2.2, st')

/-- Helper: `hue2rgb` stays inside `[0, 1]` when `0 ≤ p ≤ q ≤ 1` and the
raw hue argument lies in `[-1/3, 4/3]`. -/
theorem hue2rgb_bounds (p q t0 : ℚ) (hp : 0 ≤ p) (hpq : p ≤ q) (hq : q ≤ 1)
    (ht0 : -(1 / 3) ≤ t0) (ht1 : t0 ≤ 4 / 3) :
    0 ≤ hue2rgb p q t0 ∧ hue2rgb p q t0 ≤ 1 := by
  unfold hue2rgb
  dsimp only
  set u := if t0 < 0 then t0 + 1 else t0 with hudef
  have hub : 0 ≤ u ∧ u ≤ 4 / 3 := by
    rw [hudef]; split_ifs <;> constructor <;> linarith
  set t := if u > 1 then u - 1 else u with htdef
  have htl : 0 ≤ t := by rw [htdef]; split_ifs <;> linarith [hub.1, hub.2]
  have htu : t ≤ 1 := by rw [htdef]; split_ifs <;> linarith [hub.1, hub.2]
  have hqp : (0 : ℚ) ≤ q - p := by linarith
  split_ifs with c1 c2 c3
  · constructor
    · nlinarith [mul_nonneg hqp htl]
    · nlinarith [mul_nonneg hqp (by linarith : (0 : ℚ) ≤ 1 - 6 * t)]
  · exact ⟨by linarith, hq⟩
  · constructor
    · nlinarith [mul_nonneg hqp (by linarith : (0 : ℚ) ≤ 2 / 3 - t)]
    · nlinarith [mul_nonneg hqp (by linarith : (0 : ℚ) ≤ 6 * t - 3)]
  · exact ⟨hp, le_trans hpq hq⟩

/-- Helper: for saturation in `(0, 1]` and lightness in `[0, 1]`, every
channel produced by `hslToRgb` lies in `[0, 255]`. -/
theorem hslToRgb_channel_bounds (h s l : ℚ)
    (hh0 : 0 ≤ h) (hh1 : h ≤ 1)
    (hs0 : 0 < s) (hs1 : s ≤ 1)
    (hl0 : 0 ≤ l) (hl1 : l ≤ 1) :
    (0 ≤ (hslToRgb h s l).1 ∧ (hslToRgb h s l).1 ≤ 255) ∧
    (0 ≤ (hslToRgb h s l).2.1 ∧ (hslToRgb h s l).2.1 ≤ 255) ∧
    (0 ≤ (hslToRgb h s l).2.2 ∧ (hslToRgb h s l).2.2 ≤ 255) := by
  have hsne : ¬ s = 0 := by positivity
  have hround : ∀ x : ℚ, 0 ≤ x → x ≤ 1 → 0 ≤ jsRound (x * 255) ∧ jsRound (x * 255) ≤ 255 := by
    intro x hx0 hx1
    unfold jsRound
    constructor
    · rw [Int.le_floor]
      push_cast
      linarith
    · have : ⌊x * 255 + 1 / 2⌋ < 256 := by
        rw [Int.floor_lt]
        push_cast
        linarith
      omega
  unfold hslToRgb
  rw [if_neg hsne]
  dsimp only
  set q := if l < 1 / 2 then l * (1 + s) else l + s - l * s with hqdef
  have hq0 : 0 ≤ q := by rw [hqdef]; split_ifs <;> nlinarith
  have hq1 : q ≤ 1 := by rw [hqdef]; split_ifs <;> nlinarith
  have hpq : 2 * l - q ≤ q := by rw [hqdef]; split_ifs <;> nlinarith
  have hp0 : 0 ≤ 2 * l - q := by rw [hqdef]; split_ifs <;> nlinarith
  have hb1 := hue2rgb_bounds (2 * l - q) q (h + 1 / 3) hp0 hpq hq1 (by linarith) (by linarith)
  have hb2 := hue2rgb_bounds (2 * l - q) q h hp0 hpq hq1 (by linarith) (by linarith)
  have hb3 := hue2rgb_bounds (2 * l - q) q (h - 1 / 3) hp0 hpq hq1 (by linarith) (by linarith)
  exact ⟨hround _ hb1.1 hb1.2, hround _ hb2.1 hb2.2, hround _ hb3.1 hb3.2⟩

/-- One left-half row of the grid: `dataWidth` draws of
`Math.floor(rand() * 2.3)`, in order. -/
def mkRowVals : ℕ → RandSeed → List ℤ × RandSeed
  | 0, st => ([], st)
  | n + 1, st =>
    let v : ℤ := ⌊randVal st * (23 / 10)⌋
    let (rest, st') := mkRowVals n (randStep st)
    (v :: rest, st')

/-- One full grid row: the drawn half followed by the reverse of its
first `mirrorWidth` values (`row.concat(row.slice(0, mirrorWidth).reverse())`). -/
def mkRow (dw mw : ℕ) (st : RandSeed) : List ℤ × RandSeed :=
  let (row, st') := mkRowVals dw st
  (row ++ (row.take mw).reverse, st')

/-- The `height` grid rows, drawn row-major. -/
def mkRows : ℕ → ℕ → ℕ → RandSeed → List (List ℤ) × RandSeed
  | 0, _, _, st => ([], st)
  | hgt + 1, dw, mw, st =>
    let (r, st') := mkRow dw mw st
    let (rs, st'') := mkRows hgt dw mw st'
    (r :: rs, st'')

/-- The list of rows produced by `createImageData` for a `width × height`
grid, with `dataWidth = ceil(width / 2)` and
`mirrorWidth = width - dataWidth`. -/
def createImageDataRows (w hgt : ℕ) (st : RandSeed) : List (List ℤ) × RandSeed :=
  mkRows hgt ((w + 1) / 2) (w - (w + 1) / 2) st

/-- createImageData: the source's `flatMap` flattens the rows into one
row-major list of cells. -/
def createImageData (w hgt : ℕ) (st : RandSeed) : List ℤ × RandSeed :=
  let (rows, st') := createImageDataRows w hgt st
  (rows.flatten, st')

/-- Helper: every drawn half-row value is `⌊r * 2.3⌋` for some
`r ∈ [0, 1)`, hence lies in `{0, 1, 2}`. -/
theorem mkRowVals_mem_bounds (n : ℕ) (st : RandSeed) (v : ℤ)
    (hv : v ∈ (mkRowVals n st).1) : 0 ≤ v ∧ v ≤ 2 := by
  induction n generalizing st with
  | zero => simp [mkRowVals] at hv
  | succ n ih =>
    simp only [mkRowVals] at hv
    rcases List.mem_cons.mp hv with h | h
    · subst h
      constructor
      · refine Int.le_floor.mpr ?_
        push_cast
        exact mul_nonneg (randVal_nonneg st) (by norm_num)
      · have hlt : ⌊randVal st * (23 / 10)⌋ < 3 := by
          rw [Int.floor_lt]
          have := randVal_lt_one st
          have := randVal_nonneg st
          push_cast
          nlinarith
        omega
    · exact ih (randStep st) h

theorem mkRowVals_length (n : ℕ) (st : RandSeed) :
    (mkRowVals n st).1.length = n := by
  induction n generalizing st with
  | zero => simp [mkRowVals]
  | succ n ih => simp [mkRowVals, ih]

/-- Helper: a list followed by the reverse of its first `mw` entries is
mirror-symmetric, provided `mw ≤ length ≤ mw + 1 + mw`.  This is the
shape `mkRow` produces. -/
theorem mirror_row_symm (r : List ℤ) (dw mw : ℕ)
    (hlen : r.length = dw) (hmw : mw ≤ dw) (hdw : dw ≤ mw + 1) (i : ℕ)
    (hi : i < dw + mw) :
    (r ++ (r.take mw).reverse)[i]? = (r ++ (r.take mw).reverse)[dw + mw - 1 - i]? := by
  have htlen : (r.take mw).length = mw := by
    rw [List.length_take]
    omega
  have hrevlen : (r.take mw).reverse.length = mw := by
    rw [List.length_reverse]; exact htlen
  rcases lt_or_le i dw with hid | hid
  · rcases lt_or_le i mw with him | him
    · -- left element, mirrored partner in the reversed tail
      have hj : dw + mw - 1 - i = dw + (mw - 1 - i) := by omega
      rw [List.getElem?_append, List.getElem?_append, if_pos (by omega), hj,
        if_neg (by omega)]
      have hidx : dw + (mw - 1 - i) - r.length = mw - 1 - i := by omega
      rw [hidx, List.getElem?_reverse (by omega)]
      rw [htlen]
      have hidx2 : mw - 1 - (mw - 1 - i) = i := by omega
      rw [hidx2, List.getElem?_take_of_lt (by omega)]
    · -- center column: i is its own mirror image
      have hij : dw + mw - 1 - i = i := by omega
      rw [hij]
  · -- right element, mirrored partner on the left
    have hj : dw + mw - 1 - i < mw := by omega
    rw [List.getElem?_append, List.getElem?_append, if_neg (by omega),
      if_pos (by omega)]
    rw [List.getElem?_reverse (by omega), htlen, hlen]
    have hidx : mw - 1 - (i - dw) = dw + mw - 1 - i := by omega
    rw [hidx, List.getElem?_take_of_lt (by omega)]

/-- An RGB color triple as the source handles it (exact integers). -/
def RGB : Type := ℤ × ℤ × ℤ

instance : DecidableEq RGB := by
  unfold RGB
  exact inferInstance

/-- The raw RGBA sample buffer behind `png.data`: a byte store of a fixed
size.  `Node`'s `Buffer` silently ignores out-of-range index assignment
and truncates stored values mod 256; `write` models exactly that. -/
structure PixBuf where
  size : ℕ
  data : ℕ → ℕ

def PixBuf.write (b : PixBuf) (o : ℕ) (v : ℤ) : PixBuf :=
  if o < b.size then { b with data := Function.update b.data o (v % 256).toNat } else b

/-- The four byte stores of one pixel:
`png.data[o] = r; png.data[o+1] = g; png.data[o+2] = b; png.data[o+3] = 255`. -/
def writePix (b : PixBuf) (o : ℕ) (c : RGB) : PixBuf :=
  (((b.write o c.1).write (o + 1) c.2.1).write (o + 2) c.2.2).write (o + 3) 255

/-- The inner `for x` loop of the scaling blit. -/
def writeRow (b : PixBuf) (idx size scale y : ℕ) (c : RGB) : PixBuf :=
  (List.range scale).foldl (fun b x => writePix b (idx + (x + y * size * scale) * 4) c) b

/-- The `for y` / `for x` scaling loops for one grid cell. -/
def writeBlock (b : PixBuf) (idx size scale : ℕ) (c : RGB) : PixBuf :=
  (List.range scale).foldl (fun b y => writeRow b idx size scale y c) b

/-- The `switch` mapping a cell value to a color: 0 is background, 1 is
foreground, everything else falls into the `default` branch (spot). -/
def colorOf (v : ℤ) (bg fg spot : RGB) : RGB :=
  if v = 0 then bg
  else if v = 1 then fg
  else spot

/-- The Raster Compositor: the pixel-writing loop of `createBuffer`,
iterating over the flat grid, with `width = Math.sqrt(imageData.length)`
and `idx = (row * size * scale + col) * scale * 4`.  The buffer starts as
the zero-filled `width*height*4` allocation of the `PNG` constructor. -/
def compositeRaster (size scale : ℕ) (grid : List ℤ) (bg fg spot : RGB) : PixBuf :=
  let imageWidth := size * scale
  let init : PixBuf := ⟨imageWidth * imageWidth * 4, fun _ => 0⟩
  let width := Nat.sqrt grid.length
  (List.range grid.length).foldl (fun b i =>
    let row := i / width
    let col := i % width
    let idx := (row * size * scale + col) * scale * 4
    let color := colorOf (grid.getD i 0) bg fg spot
    writeBlock b idx size scale color) init

/-- The recognised option fields; every field is optional
(`undefined` = `none`). -/
structure OptionsParam where
  size : Option ℕ
  scale : Option ℕ
  seed : Option (List ℕ)
  fgColor : Option RGB
  bgColor : Option RGB
  spotColor : Option RGB

/-- A fully populated options record; also the type of the module-level
mutable `defaultOptions` object. -/
structure OptionsRec where
  scale : ℕ
  size : ℕ
  seed : List ℕ
  fgColor : RGB
  bgColor : RGB
  spotColor : RGB
deriving DecidableEq

/-- The initial value of the module-level `defaultOptions` object. -/
def initialDefaultOptions : OptionsRec :=
  { scale := 24
    size := 7
    seed := []
    fgColor := (0, 0, 0)
    bgColor := (255, 255, 255)
    spotColor := (0, 0, 0) }

/-- The process-wide mutable state of the module: the PRNG lane array and
the (aliased, mutated-in-place) `defaultOptions` object. -/
structure ProcState where
  randseed : RandSeed
  defaults : OptionsRec
deriving DecidableEq

/-- The state of a fresh process right after module load. -/
def initProcState : ProcState :=
  { randseed := initRandSeed, defaults := initialDefaultOptions }

/-- createBuffer.  `options` is the very `defaultOptions` object
(`const options = defaultOptions` aliases it), so every field update
below also persists into the process state for later calls.  `rnd`
stands for the random hex string `Math.floor(Math.random()*10**16)
.toString(16)` used when no seed is supplied.  The returned `PixBuf` is
the sample buffer handed to the PNG encoder (the encoder itself is an
external collaborator). -/
def createBuffer (optsParam : OptionsParam) (rnd : List ℕ) (ps : ProcState) :
    PixBuf × ProcState :=
  let o1 := { ps.defaults with scale := optsParam.scale.getD ps.defaults.scale }
  let o2 := { o1 with size := optsParam.size.getD o1.size }
  let o3 := { o2 with seed := optsParam.seed.getD rnd }
  let rs1 := createRandSeed o3.seed ps.randseed
  let icp := createIconColor rs1
  let rgb := icp.1
  let rs2 := icp.2
  let o4 := { o3 with fgColor := optsParam.fgColor.getD rgb }
  let o5 := { o4 with bgColor := optsParam.bgColor.getD o4.bgColor }
  let o6 := { o5 with spotColor := optsParam.spotColor.getD rgb }
  let gp := createImageData o6.size o6.size rs2
  let imageData := gp.1
  let rs3 := gp.2
  let buf := compositeRaster o6.size o6.scale imageData o6.bgColor o6.fgColor o6.spotColor
  (buf, { randseed := rs3, defaults := o6 })

/-- An `OptionsParam` with every field omitted. -/
def emptyOptions : OptionsParam :=
  { size := none, scale := none, seed := none
    fgColor := none, bgColor := none, spotColor := none }

theorem PixBuf.size_write (b : PixBuf) (o : ℕ) (v : ℤ) :
    (b.write o v).size = b.size := by
  unfold PixBuf.write
  split_ifs <;> rfl

theorem PixBuf.data_write_ne (b : PixBuf) (o : ℕ) (v : ℤ) (a : ℕ) (h : a ≠ o) :
    (b.write o v).data a = b.data a := by
  unfold PixBuf.write
  split_ifs
  · exact Function.update_noteq h _ _
  · rfl

theorem PixBuf.data_write_self (b : PixBuf) (o : ℕ) (v : ℤ) (h : o < b.size) :
    (b.write o v).data o = (v % 256).toNat := by
  unfold PixBuf.write
  rw [if_pos h]
  exact Function.update_same _ _ _

theorem writePix_size (b : PixBuf) (o : ℕ) (c : RGB) :
    (writePix b o c).size = b.size := by
  unfold writePix
  simp [PixBuf.size_write]

theorem writePix_data_ne (b : PixBuf) (o : ℕ) (c : RGB) (a : ℕ)
    (h0 : a ≠ o) (h1 : a ≠ o + 1) (h2 : a ≠ o + 2) (h3 : a ≠ o + 3) :
    (writePix b o c).data a = b.data a := by
  unfold writePix
  rw [PixBuf.data_write_ne _ _ _ _ h3, PixBuf.data_write_ne _ _ _ _ h2,
    PixBuf.data_write_ne _ _ _ _ h1, PixBuf.data_write_ne _ _ _ _ h0]

theorem writePix_data_eq (b : PixBuf) (o : ℕ) (c : RGB) (h : o + 3 < b.size) :
    (writePix b o c).data o = (c.1 % 256).toNat ∧
    (writePix b o c).data (o + 1) = (c.2.1 % 256).toNat ∧
    (writePix b o c).data (o + 2) = (c.2.2 % 256).toNat ∧
    (writePix b o c).data (o + 3) = 255 := by
  unfold writePix
  have e1 : ((b.write o c.1).write (o + 1) c.2.1).size = b.size := by
    rw [PixBuf.size_write, PixBuf.size_write]
  have e2 : (((b.write o c.1).write (o + 1) c.2.1).write (o + 2) c.2.2).size = b.size := by
    rw [PixBuf.size_write, e1]
  refine ⟨?_, ?_, ?_, ?_⟩
  · rw [PixBuf.data_write_ne _ _ _ _ (by omega), PixBuf.data_write_ne _ _ _ _ (by omega),
      PixBuf.data_write_ne _ _ _ _ (by omega),
      PixBuf.data_write_self _ _ _ (by omega)]
  · rw [PixBuf.data_write_ne _ _ _ _ (by omega), PixBuf.data_write_ne _ _ _ _ (by omega),
      PixBuf.data_write_self _ _ _ (by rw [PixBuf.size_write]; omega)]
  · rw [PixBuf.data_write_ne _ _ _ _ (by omega),
      PixBuf.data_write_self _ _ _ (by rw [e1]; omega)]
  · have h255 : ((255 : ℤ) % 256).toNat = 255 := by decide
    rw [PixBuf.data_write_self _ _ _ (by rw [e2]; omega), h255]

/-- Generic form of the inner `for x` loop: writes pixel `x + K` for
`x = 0, …, n-1`, where `K` abstracts the row offset `y * size * scale`. -/
theorem rowFold_size (idx K : ℕ) (c : RGB) (n : ℕ) (b : PixBuf) :
    ((List.range n).foldl (fun b x => writePix b (idx + (x + K) * 4) c) b).size = b.size := by
  induction n generalizing b with
  | zero => simp
  | succ n ih =>
    rw [List.range_succ, List.foldl_append]
    simp only [List.foldl_cons, List.foldl_nil]
    rw [writePix_size, ih]

theorem rowFold_data_ne (idx K : ℕ) (c : RGB) (n : ℕ) (b : PixBuf) (a : ℕ)
    (h : ∀ x < n, ∀ ch < 4, a ≠ idx + (x + K) * 4 + ch) :
    ((List.range n).foldl (fun b x => writePix b (idx + (x + K) * 4) c) b).data a = b.data a := by
  induction n generalizing b with
  | zero => simp
  | succ n ih =>
    rw [List.range_succ, List.foldl_append]
    simp only [List.foldl_cons, List.foldl_nil]
    rw [writePix_data_ne _ _ _ _
      (by have := h n (by omega) 0 (by omega); omega)
      (by have := h n (by omega) 1 (by omega); omega)
      (by have := h n (by omega) 2 (by omega); omega)
      (by have := h n (by omega) 3 (by omega); omega)]
    exact ih b (fun x hx ch hch => h x (by omega) ch hch)

theorem rowFold_data_eq (idx K : ℕ) (c : RGB) (n : ℕ) (b : PixBuf) (x : ℕ)
    (hx : x < n) (hsz : idx + (x + K) * 4 + 3 < b.size) :
    (((List.range n).foldl (fun b x => writePix b (idx + (x + K) * 4) c) b).data
        (idx + (x + K) * 4) = (c.1 % 256).toNat ∧
      ((List.range n).foldl (fun b x => writePix b (idx + (x + K) * 4) c) b).data
        (idx + (x + K) * 4 + 1) = (c.2.1 % 256).toNat ∧
      ((List.range n).foldl (fun b x => writePix b (idx + (x + K) * 4) c) b).data
        (idx + (x + K) * 4 + 2) = (c.2.2 % 256).toNat ∧
      ((List.range n).foldl (fun b x => writePix b (idx + (x + K) * 4) c) b).data
        (idx + (x + K) * 4 + 3) = 255) := by
  induction n generalizing b with
  | zero => omega
  | succ n ih =>
    rw [List.range_succ, List.foldl_append]
    simp only [List.foldl_cons, List.foldl_nil]
    rcases Nat.lt_or_ge x n with hxn | hxn
    · obtain ⟨e0, e1, e2, e3⟩ := ih b hxn hsz
      refine ⟨?_, ?_, ?_, ?_⟩ <;>
        rw [writePix_data_ne _ _ _ _ (by omega) (by omega) (by omega) (by omega)] <;>
        assumption
    · have hxeq : x = n := by omega
      subst hxeq
      have hsz2 : idx + (x + K) * 4 + 3 <
          ((List.range x).foldl (fun b x => writePix b (idx + (x + K) * 4) c) b).size := by
        rw [rowFold_size]
        exact hsz
      exact writePix_data_eq _ _ _ hsz2

theorem writeRow_size (b : PixBuf) (idx size scale y : ℕ) (c : RGB) :
    (writeRow b idx size scale y c).size = b.size := by
  unfold writeRow
  exact rowFold_size idx (y * size * scale) c scale b

theorem writeRow_data_ne (b : PixBuf) (idx size scale y : ℕ) (c : RGB) (a : ℕ)
    (h : ∀ x < scale, ∀ ch < 4, a ≠ idx + (x + y * size * scale) * 4 + ch) :
    (writeRow b idx size scale y c).data a = b.data a := by
  unfold writeRow
  exact rowFold_data_ne idx (y * size * scale) c scale b a h

theorem writeRow_data_eq (b : PixBuf) (idx size scale y : ℕ) (c : RGB) (x : ℕ)
    (hx : x < scale) (hsz : idx + (x + y * size * scale) * 4 + 3 < b.size) :
    ((writeRow b idx size scale y c).data
        (idx + (x + y * size * scale) * 4) = (c.1 % 256).toNat ∧
      (writeRow b idx size scale y c).data
        (idx + (x + y * size * scale) * 4 + 1) = (c.2.1 % 256).toNat ∧
      (writeRow b idx size scale y c).data
        (idx + (x + y * size * scale) * 4 + 2) = (c.2.2 % 256).toNat ∧
      (writeRow b idx size scale y c).data
        (idx + (x + y * size * scale) * 4 + 3) = 255) := by
  unfold writeRow
  exact rowFold_data_eq idx (y * size * scale) c scale b x hx hsz

/-- Generic form of the `for y` loop: for each `y < n` runs the inner row
loop with row offset `y * size * scale`. -/
theorem blockFold_size (idx size scale : ℕ) (c : RGB) (n : ℕ) (b : PixBuf) :
    ((List.range n).foldl (fun b y => writeRow b idx size scale y c) b).size = b.size := by
  induction n generalizing b with
  | zero => simp
  | succ n ih =>
    rw [List.range_succ, List.foldl_append]
    simp only [List.foldl_cons, List.foldl_nil]
    rw [writeRow_size, ih]

/-- Uniqueness of division: `v + u * K` determines `u` and `v` when
`v < K`. -/
theorem mul_add_inj (K u v u' v' : ℕ) (hv : v < K) (hv' : v' < K)
    (h : v + u * K = v' + u' * K) : u = u' ∧ v = v' := by
  have hK : 0 < K := lt_of_le_of_lt (Nat.zero_le _) hv
  have hmod : v = v' := by
    have h1 : (v + u * K) % K = (v' + u' * K) % K := by rw [h]
    rw [Nat.add_mul_mod_self_right, Nat.add_mul_mod_self_right,
      Nat.mod_eq_of_lt hv, Nat.mod_eq_of_lt hv'] at h1
    exact h1
  have hmul : u * K = u' * K := by omega
  exact ⟨Nat.eq_of_mul_eq_mul_right hK hmul, hmod⟩

/-- Write offsets of distinct `(y, x, channel)` positions within the
blit loops never collide. -/
theorem pixoff_ne (size scale idx x y x' y' ch ch' : ℕ)
    (hx : x < scale) (hx' : x' < scale) (hne : y ≠ y') (hsz1 : 1 ≤ size)
    (hch : ch < 4) (hch' : ch' < 4) :
    idx + (x + y * size * scale) * 4 + ch ≠ idx + (x' + y' * size * scale) * 4 + ch' := by
  intro he
  have hM : scale ≤ size * scale := Nat.le_mul_of_pos_left _ hsz1
  have hy : y * size * scale = y * (size * scale) := by ring
  have hy' : y' * size * scale = y' * (size * scale) := by ring
  rw [hy, hy'] at he
  have hPQ : x + y * (size * scale) = x' + y' * (size * scale) := by
    generalize x + y * (size * scale) = P at he
    generalize x' + y' * (size * scale) = Q at he
    omega
  exact hne (mul_add_inj (size * scale) y x y' x'
    (lt_of_lt_of_le hx hM) (lt_of_lt_of_le hx' hM) hPQ).1

theorem blockFold_data_ne (idx size scale : ℕ) (c : RGB) (n : ℕ) (b : PixBuf) (a : ℕ)
    (h : ∀ y < n, ∀ x < scale, ∀ ch < 4, a ≠ idx + (x + y * size * scale) * 4 + ch) :
    ((List.range n).foldl (fun b y => writeRow b idx size scale y c) b).data a = b.data a := by
  induction n generalizing b with
  | zero => simp
  | succ n ih =>
    rw [List.range_succ, List.foldl_append]
    simp only [List.foldl_cons, List.foldl_nil]
    rw [writeRow_data_ne _ _ _ _ _ _ _ (fun x hx ch hch => h n (by omega) x hx ch hch)]
    exact ih b (fun y hy x hx ch hch => h y (by omega) x hx ch hch)

theorem blockFold_data_eq (idx size scale : ℕ) (c : RGB) (n : ℕ) (b : PixBuf)
    (y x : ℕ) (hy : y < n) (hx : x < scale) (hsz1 : 1 ≤ size)
    (hsz : idx + (x + y * size * scale) * 4 + 3 < b.size) :
    (((List.range n).foldl (fun b y => writeRow b idx size scale y c) b).data
        (idx + (x + y * size * scale) * 4) = (c.1 % 256).toNat ∧
      ((List.range n).foldl (fun b y => writeRow b idx size scale y c) b).data
        (idx + (x + y * size * scale) * 4 + 1) = (c.2.1 % 256).toNat ∧
      ((List.range n).foldl (fun b y => writeRow b idx size scale y c) b).data
        (idx + (x + y * size * scale) * 4 + 2) = (c.2.2 % 256).toNat ∧
      ((List.range n).foldl (fun b y => writeRow b idx size scale y c) b).data
        (idx + (x + y * size * scale) * 4 + 3) = 255) := by
  induction n generalizing b with
  | zero => omega
  | succ n ih =>
    rw [List.range_succ, List.foldl_append]
    simp only [List.foldl_cons, List.foldl_nil]
    rcases Nat.lt_or_ge y n with hyn | hyn
    · obtain ⟨e0, e1, e2, e3⟩ := ih b hyn hsz
      refine ⟨?_, ?_, ?_, ?_⟩ <;>
          rw [writeRow_data_ne _ _ _ _ _ _ _ (fun x' hx' ch' hch' => ?_)]
      · exact e0
      · have := pixoff_ne size scale idx x y x' n 0 ch' hx hx' (by omega) hsz1
          (by omega) hch'
        omega
      · exact e1
      · have := pixoff_ne size scale idx x y x' n 1 ch' hx hx' (by omega) hsz1
          (by omega) hch'
        omega
      · exact e2
      · have := pixoff_ne size scale idx x y x' n 2 ch' hx hx' (by omega) hsz1
          (by omega) hch'
        omega
      · exact e3
      · have := pixoff_ne size scale idx x y x' n 3 ch' hx hx' (by omega) hsz1
          (by omega) hch'
        omega
    · have hyeq : y = n := by omega
      subst hyeq
      refine writeRow_data_eq _ _ _ _ _ _ _ hx ?_
      rw [blockFold_size]
      exact hsz

theorem writeBlock_size (b : PixBuf) (idx size scale : ℕ) (c : RGB) :
    (writeBlock b idx size scale c).size = b.size := by
  unfold writeBlock
  exact blockFold_size idx size scale c scale b

theorem writeBlock_data_ne (b : PixBuf) (idx size scale : ℕ) (c : RGB) (a : ℕ)
    (h : ∀ y < scale, ∀ x < scale, ∀ ch < 4, a ≠ idx + (x + y * size * scale) * 4 + ch) :
    (writeBlock b idx size scale c).data a = b.data a := by
  unfold writeBlock
  exact blockFold_data_ne idx size scale c scale b a h

theorem writeBlock_data_eq (b : PixBuf) (idx size scale : ℕ) (c : RGB)
    (y x : ℕ) (hy : y < scale) (hx : x < scale) (hsz1 : 1 ≤ size)
    (hsz : idx + (x + y * size * scale) * 4 + 3 < b.size) :
    ((writeBlock b idx size scale c).data
        (idx + (x + y * size * scale) * 4) = (c.1 % 256).toNat ∧
      (writeBlock b idx size scale c).data
        (idx + (x + y * size * scale) * 4 + 1) = (c.2.1 % 256).toNat ∧
      (writeBlock b idx size scale c).data
        (idx + (x + y * size * scale) * 4 + 2) = (c.2.2 % 256).toNat ∧
      (writeBlock b idx size scale c).data
        (idx + (x + y * size * scale) * 4 + 3) = 255) := by
  unfold writeBlock
  exact blockFold_data_eq idx size scale c scale b y x hy hx hsz1 hsz

/-- Row-major RGBA byte offset of pixel `(r*S + y, c*S + x)` in an
`N*S` by `N*S` image: four bytes per pixel. -/
def pixAddr (N S r c y x : ℕ) : ℕ :=
  ((r * S + y) * (N * S) + (c * S + x)) * 4

/-- The source's write offset `idx + (x + y*size*scale)*4` for cell
`(r, c)` is exactly the row-major RGBA offset of pixel
`(r*S + y, c*S + x)`. -/
theorem addr_eq (N S r c y x : ℕ) :
    (r * N * S + c) * S * 4 + (x + y * N * S) * 4 = pixAddr N S r c y x := by
  unfold pixAddr
  ring

theorem pixAddr_lt (N S r c y x ch : ℕ)
    (hr : r < N) (hc : c < N) (hy : y < S) (hx : x < S) (hch : ch < 4) :
    pixAddr N S r c y x + ch < N * S * (N * S) * 4 := by
  unfold pixAddr
  have hu : r * S + y < N * S := by
    calc r * S + y < r * S + S := by omega
    _ = (r + 1) * S := by ring
    _ ≤ N * S := Nat.mul_le_mul_right S (by omega)
  have hv : c * S + x < N * S := by
    calc c * S + x < c * S + S := by omega
    _ = (c + 1) * S := by ring
    _ ≤ N * S := Nat.mul_le_mul_right S (by omega)
  have h1 : (r * S + y) * (N * S) + (c * S + x) < N * S * (N * S) := by
    calc (r * S + y) * (N * S) + (c * S + x) < (r * S + y) * (N * S) + N * S := by omega
    _ = (r * S + y + 1) * (N * S) := by ring
    _ ≤ N * S * (N * S) := Nat.mul_le_mul_right (N * S) (by omega)
  generalize hP : (r * S + y) * (N * S) + (c * S + x) = P at h1 ⊢
  generalize N * S * (N * S) = B at h1 ⊢
  omega

/-- Pixel addresses of distinct grid cells never collide. -/
theorem pixAddr_ne (N S r c y x r' c' y' x' ch ch' : ℕ)
    (hr : r < N) (hc : c < N) (hy : y < S) (hx : x < S)
    (hr' : r' < N) (hc' : c' < N) (hy' : y' < S) (hx' : x' < S)
    (hch : ch < 4) (hch' : ch' < 4)
    (hrc : r ≠ r' ∨ c ≠ c') :
    pixAddr N S r c y x + ch ≠ pixAddr N S r' c' y' x' + ch' := by
  intro he
  unfold pixAddr at he
  have hu : r * S + y < N * S := by
    calc r * S + y < r * S + S := by omega
    _ = (r + 1) * S := by ring
    _ ≤ N * S := Nat.mul_le_mul_right S (by omega)
  have hv : c * S + x < N * S := by
    calc c * S + x < c * S + S := by omega
    _ = (c + 1) * S := by ring
    _ ≤ N * S := Nat.mul_le_mul_right S (by omega)
  have hu' : r' * S + y' < N * S := by
    calc r' * S + y' < r' * S + S := by omega
    _ = (r' + 1) * S := by ring
    _ ≤ N * S := Nat.mul_le_mul_right S (by omega)
  have hv' : c' * S + x' < N * S := by
    calc c' * S + x' < c' * S + S := by omega
    _ = (c' + 1) * S := by ring
    _ ≤ N * S := Nat.mul_le_mul_right S (by omega)
  have hPQ : (r * S + y) * (N * S) + (c * S + x)
      = (r' * S + y') * (N * S) + (c' * S + x') := by
    generalize hP : (r * S + y) * (N * S) + (c * S + x) = P at he
    generalize hQ : (r' * S + y') * (N * S) + (c' * S + x') = Q at he
    omega
  have hPQ2 : (c * S + x) + (r * S + y) * (N * S)
      = (c' * S + x') + (r' * S + y') * (N * S) := by
    rw [Nat.add_comm ((r * S + y) * (N * S)), Nat.add_comm ((r' * S + y') * (N * S))] at hPQ
    exact hPQ
  obtain ⟨huu, hvv⟩ := mul_add_inj (N * S) (r * S + y) (c * S + x)
    (r' * S + y') (c' * S + x') hv hv' hPQ2
  have huu2 : y + r * S = y' + r' * S := by
    rw [Nat.add_comm y, Nat.add_comm y']
    exact huu
  have hvv2 : x + c * S = x' + c' * S := by
    rw [Nat.add_comm x, Nat.add_comm x']
    exact hvv
  obtain ⟨hrr, _⟩ := mul_add_inj S r y r' y' hy hy' huu2
  obtain ⟨hcc, _⟩ := mul_add_inj S c x c' x' hx hx' hvv2
  rcases hrc with h | h
  · exact h hrr
  · exact h hcc

theorem foldl_writeBlock_size (g : PixBuf → ℕ → PixBuf)
    (hg : ∀ b i, (g b i).size = b.size) (l : List ℕ) (b : PixBuf) :
    (l.foldl g b).size = b.size := by
  induction l generalizing b with
  | nil => rfl
  | cons i l ih => rw [List.foldl_cons, ih, hg]

/-- The sample buffer always has the allocated size
`(size*scale) * (size*scale) * 4`. -/
theorem compositeRaster_size (size scale : ℕ) (grid : List ℤ) (bg fg spot : RGB) :
    (compositeRaster size scale grid bg fg spot).size = size * scale * (size * scale) * 4 := by
  unfold compositeRaster
  dsimp only
  exact foldl_writeBlock_size _ (fun b i => writeBlock_size _ _ _ _ _) _ _

/-- The compositor's fold over the first `n` grid cells (proof-layer view
of the loop in `createBuffer`, with the width already resolved to `N`). -/
def cellFold (N S : ℕ) (grid : List ℤ) (bg fg spot : RGB) (n : ℕ) (b : PixBuf) : PixBuf :=
  (List.range n).foldl (fun b i =>
    writeBlock b ((i / N * N * S + i % N) * S * 4) N S
      (colorOf (grid.getD i 0) bg fg spot)) b

theorem cellFold_succ (N S : ℕ) (grid : List ℤ) (bg fg spot : RGB) (n : ℕ) (b : PixBuf) :
    cellFold N S grid bg fg spot (n + 1) b =
      writeBlock (cellFold N S grid bg fg spot n b)
        ((n / N * N * S + n % N) * S * 4) N S (colorOf (grid.getD n 0) bg fg spot) := by
  unfold cellFold
  rw [List.range_succ, List.foldl_append]
  rfl

theorem cellFold_size (N S : ℕ) (grid : List ℤ) (bg fg spot : RGB) (n : ℕ) (b : PixBuf) :
    (cellFold N S grid bg fg spot n b).size = b.size := by
  unfold cellFold
  exact foldl_writeBlock_size _ (fun b i => writeBlock_size _ _ _ _ _) _ _

/-- On a square grid the compositor is exactly the cell fold over all
`N*N` cells starting from the zero-filled allocation. -/
theorem compositeRaster_eq (N S : ℕ) (grid : List ℤ) (bg fg spot : RGB)
    (hg : grid.length = N * N) :
    compositeRaster N S grid bg fg spot =
      cellFold N S grid bg fg spot (N * N) ⟨N * S * (N * S) * 4, fun _ => 0⟩ := by
  unfold compositeRaster cellFold
  dsimp only
  rw [hg, Nat.sqrt_eq]

theorem cellFold_data (N S : ℕ) (grid : List ℤ) (bg fg spot : RGB)
    (hN : 1 ≤ N) (hS : 1 ≤ S) (n : ℕ) (hn : n ≤ N * N)
    (b : PixBuf) (hb : b.size = N * S * (N * S) * 4)
    (i : ℕ) (hi : i < n) (y x : ℕ) (hy : y < S) (hx : x < S) :
    ((cellFold N S grid bg fg spot n b).data (pixAddr N S (i / N) (i % N) y x)
        = ((colorOf (grid.getD i 0) bg fg spot).1 % 256).toNat ∧
      (cellFold N S grid bg fg spot n b).data (pixAddr N S (i / N) (i % N) y x + 1)
        = ((colorOf (grid.getD i 0) bg fg spot).2.1 % 256).toNat ∧
      (cellFold N S grid bg fg spot n b).data (pixAddr N S (i / N) (i % N) y x + 2)
        = ((colorOf (grid.getD i 0) bg fg spot).2.2 % 256).toNat ∧
      (cellFold N S grid bg fg spot n b).data (pixAddr N S (i / N) (i % N) y x + 3)
        = 255) := by
  induction n with
  | zero => omega
  | succ n ih =>
    have hiN : i / N < N := by
      rw [Nat.div_lt_iff_lt_mul (by omega)]
      calc i < n + 1 := hi
      _ ≤ N * N := hn
      _ = N * N := rfl
    have hiM : i % N < N := Nat.mod_lt i (by omega)
    have hnN : n / N < N := by
      rw [Nat.div_lt_iff_lt_mul (by omega)]
      omega
    have hnM : n % N < N := Nat.mod_lt n (by omega)
    rw [cellFold_succ]
    rcases Nat.lt_or_ge i n with hin | hin
    · -- earlier cell: the write of cell n does not touch its pixels
      have hdiff : i / N ≠ n / N ∨ i % N ≠ n % N := by
        by_contra hcon
        push_neg at hcon
        obtain ⟨e1, e2⟩ := hcon
        have d1 := Nat.div_add_mod i N
        have d2 := Nat.div_add_mod n N
        rw [e1, e2] at d1
        have : i = n := d1.symm.trans d2
        omega
      obtain ⟨e0, e1, e2, e3⟩ := ih (by omega) hin
      refine ⟨?_, ?_, ?_, ?_⟩ <;>
          rw [writeBlock_data_ne _ _ _ _ _ _ (fun y' hy' x' hx' ch' hch' => ?_)]
      · exact e0
      · rw [addr_eq]
        have := pixAddr_ne N S (i / N) (i % N) y x (n / N) (n % N) y' x' 0 ch'
          hiN hiM hy hx hnN hnM hy' hx' (by omega) hch' hdiff
        omega
      · exact e1
      · rw [addr_eq]
        have := pixAddr_ne N S (i / N) (i % N) y x (n / N) (n % N) y' x' 1 ch'
          hiN hiM hy hx hnN hnM hy' hx' (by omega) hch' hdiff
        omega
      · exact e2
      · rw [addr_eq]
        have := pixAddr_ne N S (i / N) (i % N) y x (n / N) (n % N) y' x' 2 ch'
          hiN hiM hy hx hnN hnM hy' hx' (by omega) hch' hdiff
        omega
      · exact e3
      · rw [addr_eq]
        have := pixAddr_ne N S (i / N) (i % N) y x (n / N) (n % N) y' x' 3 ch'
          hiN hiM hy hx hnN hnM hy' hx' (by omega) hch' hdiff
        omega
    · -- cell i = n itself: the block write pins all four bytes
      have hieq : i = n := by omega
      subst hieq
      have hsz : (i / N * N * S + i % N) * S * 4 + (x + y * N * S) * 4 + 3 <
          (cellFold N S grid bg fg spot i b).size := by
        rw [cellFold_size, hb, addr_eq]
        exact pixAddr_lt N S (i / N) (i % N) y x 3 hiN hiM hy hx (by omega)
      have h := writeBlock_data_eq (cellFold N S grid bg fg spot i b)
        ((i / N * N * S + i % N) * S * 4) N S
        (colorOf (grid.getD i 0) bg fg spot) y x hy hx hN hsz
      rw [addr_eq] at h
      exact h

/-- Full characterization of the compositor's sample buffer on a square
grid: every pixel `(r*S + y, c*S + x)` of the `S` by `S` block of grid
cell `(r, c)` carries the color selected by the `switch`, plus an alpha
byte of 255. -/
theorem compositeRaster_data (N S : ℕ) (grid : List ℤ) (bg fg spot : RGB)
    (hN : 1 ≤ N) (hS : 1 ≤ S) (hg : grid.length = N * N)
    (r c y x : ℕ) (hr : r < N) (hc : c < N) (hy : y < S) (hx : x < S) :
    ((compositeRaster N S grid bg fg spot).data (pixAddr N S r c y x)
        = ((colorOf (grid.getD (r * N + c) 0) bg fg spot).1 % 256).toNat ∧
      (compositeRaster N S grid bg fg spot).data (pixAddr N S r c y x + 1)
        = ((colorOf (grid.getD (r * N + c) 0) bg fg spot).2.1 % 256).toNat ∧
      (compositeRaster N S grid bg fg spot).data (pixAddr N S r c y x + 2)
        = ((colorOf (grid.getD (r * N + c) 0) bg fg spot).2.2 % 256).toNat ∧
      (compositeRaster N S grid bg fg spot).data (pixAddr N S r c y x + 3)
        = 255) := by
  rw [compositeRaster_eq N S grid bg fg spot hg]
  have hi : r * N + c < N * N := by
    calc r * N + c < r * N + N := by omega
    _ = (r + 1) * N := by ring
    _ ≤ N * N := Nat.mul_le_mul_right N (by omega)
  have e1 : (r * N + c) / N = r := by
    rw [Nat.mul_comm r N, Nat.mul_add_div (by omega), Nat.div_eq_of_lt hc]
    omega
  have e2 : (r * N + c) % N = c := by
    rw [Nat.mul_comm r N, Nat.mul_add_mod, Nat.mod_eq_of_lt hc]
  have h := cellFold_data N S grid bg fg spot hN hS (N * N) (le_refl _)
    ⟨N * S * (N * S) * 4, fun _ => 0⟩ rfl (r * N + c) hi y x hy hx
  rw [e1, e2] at h
  exact h

/-- Specification-side seed step, following the spec's words for C9:
`lane := 31 * lane + code`, computed with 32-bit signed wraparound
(equivalently, reduced modulo 2^32).  To be compared with the source's
`seedStep`. -/
def specSeedStep (a : ℤ) (c : ℕ) : ℤ :=
  toInt32 (31 * a + (c : ℤ))

def specFoldSeedChar (st : RandSeed) (i : ℕ) (c : ℕ) : RandSeed :=
  if i % 4 = 0 then { st with s0 := specSeedStep st.s0 c }
  else if i % 4 = 1 then { st with s1 := specSeedStep st.s1 c }
  else if i % 4 = 2 then { st with s2 := specSeedStep st.s2 c }
  else { st with s3 := specSeedStep st.s3 c }

def specSeedFoldAux : ℕ → List ℕ → RandSeed → RandSeed
  | _, [], st => st
  | i, c :: cs, st => specSeedFoldAux (i + 1) cs (specFoldSeedChar st i c)

/-- Specification-side `createRandSeed`: multiply-by-31 accumulation into
lane `i % 4`, starting from the existing state. -/
def specCreateRandSeed (codes : List ℕ) (st : RandSeed) : RandSeed :=
  specSeedFoldAux 0 codes st

/-- Lane-wise congruence modulo 2^32. -/
def laneCongr (st st' : RandSeed) : Prop :=
  st.s0 % 4294967296 = st'.s0 % 4294967296 ∧
  st.s1 % 4294967296 = st'.s1 % 4294967296 ∧
  st.s2 % 4294967296 = st'.s2 % 4294967296 ∧
  st.s3 % 4294967296 = st'.s3 % 4294967296

theorem seedStep_congr (a a' : ℤ) (c : ℕ)
    (h : a % 4294967296 = a' % 4294967296) :
    seedStep a c % 4294967296 = specSeedStep a' c % 4294967296 := by
  unfold seedStep specSeedStep jsShl toInt32
  norm_num
  omega

theorem foldSeedChar_congr (st st' : RandSeed) (i c : ℕ) (h : laneCongr st st') :
    laneCongr (foldSeedChar st i c) (specFoldSeedChar st' i c) := by
  obtain ⟨h0, h1, h2, h3⟩ := h
  unfold foldSeedChar specFoldSeedChar laneCongr
  split_ifs <;>
    exact ⟨by first | exact seedStep_congr _ _ _ (by assumption) | assumption,
      by first | exact seedStep_congr _ _ _ (by assumption) | assumption,
      by first | exact seedStep_congr _ _ _ (by assumption) | assumption,
      by first | exact seedStep_congr _ _ _ (by assumption) | assumption⟩

theorem seedFoldAux_congr (codes : List ℕ) :
    ∀ (i : ℕ) (st st' : RandSeed), laneCongr st st' →
      laneCongr (seedFoldAux i codes st) (specSeedFoldAux i codes st') := by
  induction codes with
  | nil => intro i st st' h; exact h
  | cons c cs ih =>
    intro i st st' h
    exact ih (i + 1) _ _ (foldSeedChar_congr st st' i c h)

/-- Helper: the source's seed folding agrees with the spec's
multiply-by-31 folding modulo 2^32, lane by lane, from any prior
state. -/
theorem createRandSeed_congr (codes : List ℕ) (st : RandSeed) :
    laneCongr (createRandSeed codes st) (specCreateRandSeed codes st) := by
  unfold createRandSeed specCreateRandSeed
  exact seedFoldAux_congr codes 0 st st ⟨rfl, rfl, rfl, rfl⟩

/-- Helper: rows produced by `mkRow` only contain draw values. -/
theorem mkRow_mem_bounds (dw mw : ℕ) (st : RandSeed) (v : ℤ)
    (hv : v ∈ (mkRow dw mw st).1) : 0 ≤ v ∧ v ≤ 2 := by
  rcases hrv : mkRowVals dw st with ⟨row, st2⟩
  unfold mkRow at hv
  rw [hrv] at hv
  dsimp only at hv
  have hrow : ∀ w, w ∈ row → 0 ≤ w ∧ w ≤ 2 := by
    intro w hw
    apply mkRowVals_mem_bounds dw st
    rw [hrv]
    exact hw
  rcases List.mem_append.mp hv with h | h
  · exact hrow v h
  · exact hrow v (List.mem_of_mem_take (List.mem_reverse.mp h))

/-- Helper: all rows of `mkRows` only contain draw values. -/
theorem mkRows_mem_bounds (hgt dw mw : ℕ) (st : RandSeed) (row : List ℤ)
    (hrow : row ∈ (mkRows hgt dw mw st).1) (v : ℤ) (hv : v ∈ row) :
    0 ≤ v ∧ v ≤ 2 := by
  induction hgt generalizing st with
  | zero => simp [mkRows] at hrow
  | succ hgt ih =>
    rcases hr1 : mkRow dw mw st with ⟨r, st1⟩
    unfold mkRows at hrow
    rw [hr1] at hrow
    dsimp only at hrow
    rcases hr2 : mkRows hgt dw mw st1 with ⟨rs, st2⟩
    rw [hr2] at hrow
    dsimp only at hrow
    rcases List.mem_cons.mp hrow with h | h
    · subst h
      have := mkRow_mem_bounds dw mw st v
      rw [hr1] at this
      exact this hv
    · have := ih st1
      rw [hr2] at this
      exact this h

/-- Helper: each row of `mkRows` has the mirrored shape
`r ++ (r.take mw).reverse` with `r.length = dw`. -/
theorem mkRows_mem_shape (hgt dw mw : ℕ) (st : RandSeed) (row : List ℤ)
    (hrow : row ∈ (mkRows hgt dw mw st).1) :
    ∃ r : List ℤ, r.length = dw ∧ row = r ++ (r.take mw).reverse := by
  induction hgt generalizing st with
  | zero => simp [mkRows] at hrow
  | succ hgt ih =>
    rcases hr0 : mkRowVals dw st with ⟨r, st1⟩
    unfold mkRows mkRow at hrow
    rw [hr0] at hrow
    dsimp only at hrow
    rcases hr2 : mkRows hgt dw mw st1 with ⟨rs, st2⟩
    rw [hr2] at hrow
    dsimp only at hrow
    rcases List.mem_cons.mp hrow with h | h
    · refine ⟨r, ?_, h⟩
      have := mkRowVals_length dw st
      rw [hr0] at this
      exact this
    · have := ih st1
      rw [hr2] at this
      exact this h

/-- Integer form of one grid draw: `floor(rand() * 2.3)` equals this
integer division (used to evaluate concrete runs, since the kernel does
not reduce rational normalisation). -/
def intCellVal (st : RandSeed) : ℤ :=
  23 * (toUint32 (randStep st).s3 : ℤ) / 21474836480

theorem cellVal_eq (st : RandSeed) :
    ⌊ randVal st * (23 / 10)⌋ = intCellVal st := by
  have h : randVal st * (23 / 10)
      = ((23 * (toUint32 (randStep st).s3 : ℤ) : ℤ) : ℚ) / ((21474836480 : ℕ) : ℚ) := by
    unfold randVal
    push_cast
    ring
  rw [h, Rat.floor_intCast_div_natCast]
  unfold intCellVal
  norm_num

/-- Kernel-computable mirror of `mkRowVals`. -/
def intMkRowVals : ℕ → RandSeed → List ℤ × RandSeed
  | 0, st => ([], st)
  | n + 1, st =>
    let v : ℤ := intCellVal st
    let (rest, st') := intMkRowVals n (randStep st)
    (v :: rest, st')

def intMkRow (dw mw : ℕ) (st : RandSeed) : List ℤ × RandSeed :=
  let (row, st') := intMkRowVals dw st
  (row ++ (row.take mw).reverse, st')

def intMkRows : ℕ → ℕ → ℕ → RandSeed → List (List ℤ) × RandSeed
  | 0, _, _, st => ([], st)
  | hgt + 1, dw, mw, st =>
    let (r, st') := intMkRow dw mw st
    let (rs, st'') := intMkRows hgt dw mw st'
    (r :: rs, st'')

theorem mkRowVals_eq_int (n : ℕ) (st : RandSeed) :
    mkRowVals n st = intMkRowVals n st := by
  induction n generalizing st with
  | zero => rfl
  | succ n ih =>
    unfold mkRowVals intMkRowVals
    rw [ih, cellVal_eq]

theorem mkRow_eq_int (dw mw : ℕ) (st : RandSeed) :
    mkRow dw mw st = intMkRow dw mw st := by
  unfold mkRow intMkRow
  rw [mkRowVals_eq_int]

theorem mkRows_eq_int (hgt dw mw : ℕ) (st : RandSeed) :
    mkRows hgt dw mw st = intMkRows hgt dw mw st := by
  induction hgt generalizing st with
  | zero => rfl
  | succ hgt ih =>
    unfold mkRows intMkRows
    rw [mkRow_eq_int]
    rcases hp : intMkRow dw mw st with ⟨r, st1⟩
    dsimp only
    rw [ih]

theorem createImageDataRows_eq_int (w hgt : ℕ) (st : RandSeed) :
    createImageDataRows w hgt st = intMkRows hgt ((w + 1) / 2) (w - (w + 1) / 2) st := by
  unfold createImageDataRows
  rw [mkRows_eq_int]

theorem createImageData_eq_int (w hgt : ℕ) (st : RandSeed) :
    createImageData w hgt st =
      ((intMkRows hgt ((w + 1) / 2) (w - (w + 1) / 2) st).1.flatten,
        (intMkRows hgt ((w + 1) / 2) (w - (w + 1) / 2) st).2) := by
  unfold createImageData
  rw [createImageDataRows_eq_int]

/-- C2: for every engine state, `rand()` returns a value `r` with
`0 ≤ r < 1`, and `r` is `unsigned(lane3) / 2^31` computed on the state
after the 4-lane xorshift step.  (The high bit of the new lane 3 is
always clear, so the unsigned reading stays below 2^31.) -/
theorem c2_rand_range (st : RandSeed) :
    0 ≤ randVal st ∧ randVal st < 1 ∧
      randVal st = (toUint32 (randStep st).s3 : ℚ) / 2147483648 :=
  ⟨randVal_nonneg st, randVal_lt_one st, rfl⟩

/-- C3: for every engine state, the RGB triple derived by `createHSL`
followed by `hslToRgb` has every channel an integer in `[0, 255]`
(stated for all states, which covers every reachable one). -/
theorem c3_color_range (st : RandSeed) :
    (0 ≤ (createIconColor st).1.1 ∧ (createIconColor st).1.1 ≤ 255) ∧
    (0 ≤ (createIconColor st).1.2.1 ∧ (createIconColor st).1.2.1 ≤ 255) ∧
    (0 ≤ (createIconColor st).1.2.2 ∧ (createIconColor st).1.2.2 ≤ 255) := by
  unfold createIconColor createHSL rand
  dsimp only
  apply hslToRgb_channel_bounds
  · exact randVal_nonneg st
  · exact le_of_lt (randVal_lt_one st)
  · have := randVal_nonneg (randStep st)
    linarith
  · have := randVal_lt_one (randStep st)
    linarith
  · have h1 := randVal_nonneg (randStep (randStep st))
    have h2 := randVal_nonneg (randStep (randStep (randStep st)))
    have h3 := randVal_nonneg (randStep (randStep (randStep (randStep st))))
    have h4 := randVal_nonneg (randStep (randStep (randStep (randStep (randStep st)))))
    linarith
  · have h1 := randVal_lt_one (randStep (randStep st))
    have h2 := randVal_lt_one (randStep (randStep (randStep st)))
    have h3 := randVal_lt_one (randStep (randStep (randStep (randStep st))))
    have h4 := randVal_lt_one (randStep (randStep (randStep (randStep (randStep st)))))
    linarith

/-- C4: for every size `N ≥ 1` and every engine state, every cell of the
grid built by `createImageData` lies in `{0, 1, 2}` (each drawn cell is
`floor(rand() * 2.3)` with `rand() ∈ [0, 1)`). -/
theorem c4_cell_range (N : ℕ) (st : RandSeed) (hN : 1 ≤ N) (v : ℤ)
    (hv : v ∈ (createImageData N N st).1) : v = 0 ∨ v = 1 ∨ v = 2 := by
  rcases hr : createImageDataRows N N st with ⟨rows, st'⟩
  unfold createImageData at hv
  rw [hr] at hv
  dsimp only at hv
  obtain ⟨row, hrow, hvrow⟩ := List.mem_flatten.mp hv
  have := mkRows_mem_bounds N ((N + 1) / 2) (N - (N + 1) / 2) st row
    (by rw [show mkRows N ((N + 1) / 2) (N - (N + 1) / 2) st
          = createImageDataRows N N st from rfl, hr]; exact hrow) v hvrow
  omega

/-- C4 witness at `N = 1` and the zero state. -/
theorem c4_cell_range_witness :
    1 ≤ 1 ∧ (0 : ℤ) ∈ (createImageData 1 1 initRandSeed).1 ∧
      ((0 : ℤ) = 0 ∨ (0 : ℤ) = 1 ∨ (0 : ℤ) = 2) :=
  ⟨by norm_num, by rw [createImageData_eq_int]; decide,
    c4_cell_range 1 initRandSeed (by norm_num) 0
      (by rw [createImageData_eq_int]; decide)⟩

/-- C5: for every size `N ≥ 1` and every engine state, every row of the
grid has length `N` and is horizontally mirror-symmetric:
`row[i] = row[N-1-i]` for every `i < N`. -/
theorem c5_row_symmetry (N : ℕ) (st : RandSeed) (hN : 1 ≤ N)
    (row : List ℤ) (hrow : row ∈ (createImageDataRows N N st).1) :
    row.length = N ∧ ∀ i < N, row[i]? = row[N - 1 - i]? := by
  obtain ⟨r, hrlen, hshape⟩ := mkRows_mem_shape N ((N + 1) / 2) (N - (N + 1) / 2) st row hrow
  have hdw : (N + 1) / 2 + (N - (N + 1) / 2) = N := by omega
  have hmw : N - (N + 1) / 2 ≤ (N + 1) / 2 := by omega
  have hdw2 : (N + 1) / 2 ≤ (N - (N + 1) / 2) + 1 := by omega
  have hlen : row.length = N := by
    rw [hshape, List.length_append, List.length_reverse, List.length_take, hrlen]
    omega
  refine ⟨hlen, fun i hi => ?_⟩
  rw [hshape]
  have h := mirror_row_symm r ((N + 1) / 2) (N - (N + 1) / 2) hrlen hmw hdw2 i
    (by omega)
  rw [hdw] at h
  exact h

/-- C5 witness at `N = 2` and the zero state, row `[0, 0]`, index 0. -/
theorem c5_row_symmetry_witness :
    1 ≤ 2 ∧ ([0, 0] : List ℤ) ∈ (createImageDataRows 2 2 initRandSeed).1 ∧
      ([0, 0] : List ℤ).length = 2 ∧
      (([0, 0] : List ℤ)[0]? = ([0, 0] : List ℤ)[2 - 1 - 0]?) :=
  ⟨by norm_num, by rw [createImageDataRows_eq_int]; decide,
    (c5_row_symmetry 2 initRandSeed (by norm_num) [0, 0]
      (by rw [createImageDataRows_eq_int]; decide)).1,
    (c5_row_symmetry 2 initRandSeed (by norm_num) [0, 0]
      (by rw [createImageDataRows_eq_int]; decide)).2 0 (by norm_num)⟩

/-- C9: for every input (as character codes) and every prior engine
state, the source's seed folding agrees, lane by lane and modulo 2^32,
with the spec's `lane := 31 * lane + code` folding into lane `i mod 4`;
and the lanes are never reset between calls: seeding twice with "a"
perturbs the state further instead of reproducing it. -/
theorem c9_seed_fold (codes : List ℕ) (st : RandSeed) :
    ((createRandSeed codes st).s0 % 4294967296
        = (specCreateRandSeed codes st).s0 % 4294967296 ∧
      (createRandSeed codes st).s1 % 4294967296
        = (specCreateRandSeed codes st).s1 % 4294967296 ∧
      (createRandSeed codes st).s2 % 4294967296
        = (specCreateRandSeed codes st).s2 % 4294967296 ∧
      (createRandSeed codes st).s3 % 4294967296
        = (specCreateRandSeed codes st).s3 % 4294967296) ∧
    createRandSeed [97] (createRandSeed [97] initRandSeed)
      ≠ createRandSeed [97] initRandSeed :=
  ⟨createRandSeed_congr codes st, by decide⟩

/-- C10 counterexample: the claim's premise is false — `rand()` can
never return a value `≥ 1` (the xorshift step always clears the high
bit), and consequently the grid can never contain the values 3 or 4. -/
theorem c10_counterexample :
    ¬ (∃ st : RandSeed, 1 ≤ randVal st) ∧
    ¬ (∃ (N : ℕ) (st : RandSeed) (v : ℤ),
        v ∈ (createImageData N N st).1 ∧ (v = 3 ∨ v = 4)) := by
  constructor
  · rintro ⟨st, h⟩
    exact absurd (randVal_lt_one st) (by linarith)
  · rintro ⟨N, st, v, hv, hval⟩
    rcases hr : createImageDataRows N N st with ⟨rows, st'⟩
    unfold createImageData at hv
    rw [hr] at hv
    dsimp only at hv
    obtain ⟨row, hrow, hvrow⟩ := List.mem_flatten.mp hv
    have := mkRows_mem_bounds N ((N + 1) / 2) (N - (N + 1) / 2) st row
      (by rw [show mkRows N ((N + 1) / 2) (N - (N + 1) / 2) st
            = createImageDataRows N N st from rfl, hr]; exact hrow) v hvrow
    omega

/-- C10 (amended): the `switch` mapping cell values to colors is total —
every value other than 0 and 1 (including the hypothetical 3 and 4)
falls into the `default` branch and is rendered with `spotColor` — so
every cell is painted with exactly one of `bgColor`, `fgColor`,
`spotColor`.  (The grid in fact never contains 3 or 4, because `rand()`
always returns values below 1; see the counterexample.) -/
theorem c10_switch_total (v : ℤ) (bg fg spot : RGB) :
    (v ≠ 0 → v ≠ 1 → colorOf v bg fg spot = spot) ∧
    (colorOf v bg fg spot = bg ∨ colorOf v bg fg spot = fg ∨
      colorOf v bg fg spot = spot) := by
  unfold colorOf
  constructor
  · intro h0 h1
    rw [if_neg h0, if_neg h1]
  · split_ifs
    · exact Or.inl rfl
    · exact Or.inr (Or.inl rfl)
    · exact Or.inr (Or.inr rfl)

/-- C10 witness: the hypothetical cell value 3 is painted with
`spotColor`. -/
theorem c10_switch_total_witness :
    ((3 : ℤ) ≠ 0 → (3 : ℤ) ≠ 1 →
      colorOf 3 (255, 255, 255) (0, 0, 0) (7, 8, 9) = (7, 8, 9)) ∧
    (colorOf 3 (255, 255, 255) (0, 0, 0) (7, 8, 9) = (255, 255, 255) ∨
      colorOf 3 (255, 255, 255) (0, 0, 0) (7, 8, 9) = (0, 0, 0) ∨
      colorOf 3 (255, 255, 255) (0, 0, 0) (7, 8, 9) = (7, 8, 9)) :=
  c10_switch_total 3 (255, 255, 255) (0, 0, 0) (7, 8, 9)

/-- Helper: a channel value already in `[0, 255]` is stored unchanged by
the byte store. -/
theorem byte_id (v : ℤ) (h0 : 0 ≤ v) (h1 : v ≤ 255) :
    (((v % 256).toNat : ℤ) = v) := by
  rw [Int.emod_eq_of_lt h0 (by omega)]
  exact Int.toNat_of_nonneg h0

/-- Helper: the switch always selects one of the three colors. -/
theorem colorOf_mem (v : ℤ) (bg fg spot : RGB) :
    colorOf v bg fg spot = bg ∨ colorOf v bg fg spot = fg ∨
      colorOf v bg fg spot = spot := by
  unfold colorOf
  split_ifs
  · exact Or.inl rfl
  · exact Or.inr (Or.inl rfl)
  · exact Or.inr (Or.inr rfl)

/-- Validity of a color triple: every channel an integer in `[0, 255]`. -/
def validRGB (c : RGB) : Prop :=
  0 ≤ c.1 ∧ c.1 ≤ 255 ∧ 0 ≤ c.2.1 ∧ c.2.1 ≤ 255 ∧ 0 ≤ c.2.2 ∧ c.2.2 ≤ 255

instance (c : RGB) : Decidable (validRGB c) := by
  unfold validRGB
  exact inferInstance

theorem colorOf_valid (v : ℤ) (bg fg spot : RGB)
    (hbg : validRGB bg) (hfg : validRGB fg) (hspot : validRGB spot) :
    validRGB (colorOf v bg fg spot) := by
  rcases colorOf_mem v bg fg spot with h | h | h <;> rw [h] <;> assumption

/-- C6: for every size `N ≥ 1`, scale `S ≥ 1`, square grid and valid
colors, the compositor's sample buffer has `4*(N*S)^2` bytes (an `N*S`
by `N*S` RGBA image), every pixel's alpha byte is 255, and every pixel
of the `S` by `S` block of grid cell `(r, c)` carries exactly the one
color the switch maps that cell to (one of `bg`, `fg`, `spot`). -/
theorem c6_compositor_shape (N S : ℕ) (grid : List ℤ) (bg fg spot : RGB)
    (hN : 1 ≤ N) (hS : 1 ≤ S) (hg : grid.length = N * N)
    (hbg : validRGB bg) (hfg : validRGB fg) (hspot : validRGB spot) :
    (compositeRaster N S grid bg fg spot).size = 4 * (N * S) ^ 2 ∧
    (∀ p, p < (N * S) ^ 2 →
      (compositeRaster N S grid bg fg spot).data (4 * p + 3) = 255) ∧
    (∀ r c y x, r < N → c < N → y < S → x < S →
      (((compositeRaster N S grid bg fg spot).data (pixAddr N S r c y x) : ℤ)
          = (colorOf (grid.getD (r * N + c) 0) bg fg spot).1 ∧
        ((compositeRaster N S grid bg fg spot).data (pixAddr N S r c y x + 1) : ℤ)
          = (colorOf (grid.getD (r * N + c) 0) bg fg spot).2.1 ∧
        ((compositeRaster N S grid bg fg spot).data (pixAddr N S r c y x + 2) : ℤ)
          = (colorOf (grid.getD (r * N + c) 0) bg fg spot).2.2 ∧
        (compositeRaster N S grid bg fg spot).data (pixAddr N S r c y x + 3) = 255) ∧
      (colorOf (grid.getD (r * N + c) 0) bg fg spot = bg ∨
        colorOf (grid.getD (r * N + c) 0) bg fg spot = fg ∨
        colorOf (grid.getD (r * N + c) 0) bg fg spot = spot)) := by
  have hW0 : 0 < N * S := Nat.mul_pos (by omega) (by omega)
  refine ⟨?_, ?_, ?_⟩
  · rw [compositeRaster_size]
    ring
  · intro p hp
    have hpsq : p < (N * S) * (N * S) := by
      have : (N * S) ^ 2 = (N * S) * (N * S) := by ring
      omega
    have hpW : p / (N * S) < N * S := by
      rw [Nat.div_lt_iff_lt_mul hW0]
      exact hpsq
    have hr : p / (N * S) / S < N := by
      rw [Nat.div_lt_iff_lt_mul (by omega)]
      exact hpW
    have hy : p / (N * S) % S < S := Nat.mod_lt _ (by omega)
    have hc : p % (N * S) / S < N := by
      rw [Nat.div_lt_iff_lt_mul (by omega)]
      exact Nat.mod_lt _ hW0
    have hx : p % (N * S) % S < S := Nat.mod_lt _ (by omega)
    have key := compositeRaster_data N S grid bg fg spot hN hS hg
      (p / (N * S) / S) (p % (N * S) / S) (p / (N * S) % S) (p % (N * S) % S)
      hr hc hy hx
    have e1 : p / (N * S) / S * S + p / (N * S) % S = p / (N * S) := by
      rw [Nat.mul_comm]
      exact Nat.div_add_mod _ _
    have e2 : p % (N * S) / S * S + p % (N * S) % S = p % (N * S) := by
      rw [Nat.mul_comm]
      exact Nat.div_add_mod _ _
    have e3 : p / (N * S) * (N * S) + p % (N * S) = p := by
      rw [Nat.mul_comm]
      exact Nat.div_add_mod _ _
    have haddr : pixAddr N S (p / (N * S) / S) (p % (N * S) / S)
        (p / (N * S) % S) (p % (N * S) % S) + 3 = 4 * p + 3 := by
      unfold pixAddr
      rw [e1, e2, e3]
      ring
    rw [haddr] at key
    exact key.2.2.2
  · intro r c y x hr hc hy hx
    have key := compositeRaster_data N S grid bg fg spot hN hS hg r c y x hr hc hy hx
    have hval := colorOf_valid (grid.getD (r * N + c) 0) bg fg spot hbg hfg hspot
    obtain ⟨v0, v1, v2, v3, v4, v5⟩ := hval
    refine ⟨⟨?_, ?_, ?_, key.2.2.2⟩, colorOf_mem _ _ _ _⟩
    · rw [key.1]
      exact byte_id _ v0 v1
    · rw [key.2.1]
      exact byte_id _ v2 v3
    · rw [key.2.2.1]
      exact byte_id _ v4 v5

/-- C6 witness at `N = S = 1`, grid `[0]`, concrete valid colors. -/
theorem c6_compositor_shape_witness :
    1 ≤ 1 ∧ 1 ≤ 1 ∧ ([(0 : ℤ)] : List ℤ).length = 1 * 1 ∧
      validRGB (10, 20, 30) ∧ validRGB (40, 50, 60) ∧ validRGB (70, 80, 90) ∧
      ((compositeRaster 1 1 [0] (10, 20, 30) (40, 50, 60) (70, 80, 90)).size
          = 4 * (1 * 1) ^ 2 ∧
        (∀ p, p < (1 * 1) ^ 2 →
          (compositeRaster 1 1 [0] (10, 20, 30) (40, 50, 60) (70, 80, 90)).data
            (4 * p + 3) = 255) ∧
        (∀ r c y x, r < 1 → c < 1 → y < 1 → x < 1 →
          (((compositeRaster 1 1 [0] (10, 20, 30) (40, 50, 60) (70, 80, 90)).data
                (pixAddr 1 1 r c y x) : ℤ)
              = (colorOf (([0] : List ℤ).getD (r * 1 + c) 0)
                  (10, 20, 30) (40, 50, 60) (70, 80, 90)).1 ∧
            ((compositeRaster 1 1 [0] (10, 20, 30) (40, 50, 60) (70, 80, 90)).data
                (pixAddr 1 1 r c y x + 1) : ℤ)
              = (colorOf (([0] : List ℤ).getD (r * 1 + c) 0)
                  (10, 20, 30) (40, 50, 60) (70, 80, 90)).2.1 ∧
            ((compositeRaster 1 1 [0] (10, 20, 30) (40, 50, 60) (70, 80, 90)).data
                (pixAddr 1 1 r c y x + 2) : ℤ)
              = (colorOf (([0] : List ℤ).getD (r * 1 + c) 0)
                  (10, 20, 30) (40, 50, 60) (70, 80, 90)).2.2 ∧
            (compositeRaster 1 1 [0] (10, 20, 30) (40, 50, 60) (70, 80, 90)).data
                (pixAddr 1 1 r c y x + 3) = 255) ∧
          (colorOf (([0] : List ℤ).getD (r * 1 + c) 0)
              (10, 20, 30) (40, 50, 60) (70, 80, 90) = (10, 20, 30) ∨
            colorOf (([0] : List ℤ).getD (r * 1 + c) 0)
              (10, 20, 30) (40, 50, 60) (70, 80, 90) = (40, 50, 60) ∨
            colorOf (([0] : List ℤ).getD (r * 1 + c) 0)
              (10, 20, 30) (40, 50, 60) (70, 80, 90) = (70, 80, 90)))) :=
  ⟨le_refl 1, le_refl 1, rfl, by decide, by decide, by decide,
    c6_compositor_shape 1 1 [0] (10, 20, 30) (40, 50, 60) (70, 80, 90)
      (le_refl 1) (le_refl 1) rfl (by decide) (by decide) (by decide)⟩

/-- Options of the C1 failing input: seed "a" (code 97), size 2,
scale 1, all three colors supplied explicitly. -/
def c1Opts : OptionsParam :=
  { size := some 2, scale := some 1, seed := some [97]
    fgColor := some (9, 9, 9), bgColor := some (255, 255, 255)
    spotColor := some (3, 3, 3) }

set_option maxRecDepth 100000 in
/-- C1: calling `createBuffer` twice with identical options (seed "a")
from a fresh process does NOT give byte-identical buffers: the global
`randseed` lane array is never reset, so the second call starts from the
state the first call left behind.  Byte 8 (pixel 2, red channel) is 255
(background) in the first run and 9 (foreground) in the second. -/
theorem c1_same_seed_calls_differ :
    (createBuffer c1Opts [] initProcState).1.data 8 = 255 ∧
    (createBuffer c1Opts [] (createBuffer c1Opts [] initProcState).2).1.data 8 = 9 ∧
    (createBuffer c1Opts [] initProcState).1.data 8
      ≠ (createBuffer c1Opts [] (createBuffer c1Opts [] initProcState).2).1.data 8 := by
  have h : (createBuffer c1Opts [] initProcState).1.data 8 = 255 ∧
      (createBuffer c1Opts [] (createBuffer c1Opts [] initProcState).2).1.data 8 = 9 := by
    simp only [createBuffer, c1Opts, initProcState, initialDefaultOptions,
      Option.getD_some, createImageData_eq_int]
    rw [compositeRaster_eq 2 1 _ _ _ _ (by decide),
      compositeRaster_eq 2 1 _ _ _ _ (by decide)]
    constructor
    · decide
    · decide
  exact ⟨h.1, h.2, by omega⟩

/-- First call of the C7 failing input: supplies `bgColor = (1,2,3)`. -/
def c7FirstOpts : OptionsParam :=
  { size := some 1, scale := some 1, seed := some [97]
    fgColor := none, bgColor := some (1, 2, 3), spotColor := none }

/-- Second call of the C7 failing input: omits `bgColor`. -/
def c7SecondOpts : OptionsParam :=
  { size := some 1, scale := some 1, seed := some [98]
    fgColor := none, bgColor := none, spotColor := none }

set_option maxRecDepth 100000 in
/-- C7: `const options = defaultOptions` aliases the module-level
default-options object, so a call that supplies `bgColor = (1,2,3)`
overwrites the shared default; a later call omitting `bgColor` then uses
`(1,2,3)` instead of the documented default `(255,255,255)` — its single
pixel is rendered `(1,2,3)`.  Only a call in a fresh process still sees
`(255,255,255)`. -/
theorem c7_default_bgcolor_leaks :
    (createBuffer c7SecondOpts []
        (createBuffer c7FirstOpts [] initProcState).2).2.defaults.bgColor = (1, 2, 3) ∧
    ((createBuffer c7SecondOpts []
        (createBuffer c7FirstOpts [] initProcState).2).1.data 0 = 1 ∧
      (createBuffer c7SecondOpts []
        (createBuffer c7FirstOpts [] initProcState).2).1.data 1 = 2 ∧
      (createBuffer c7SecondOpts []
        (createBuffer c7FirstOpts [] initProcState).2).1.data 2 = 3) ∧
    (createBuffer c7SecondOpts [] initProcState).2.defaults.bgColor = (255, 255, 255) := by
  refine ⟨by decide, ?_, by decide⟩
  simp only [createBuffer, c7FirstOpts, c7SecondOpts, initProcState, initialDefaultOptions,
    Option.getD_some, Option.getD_none, createImageData_eq_int]
  rw [compositeRaster_eq 1 1 _ _ _ _ (by decide)]
  refine ⟨by decide, by decide, by decide⟩

/-- Options of the C8 failing input: `size = 0`. -/
def c8Opts : OptionsParam :=
  { size := some 0, scale := some 1, seed := some [97]
    fgColor := none, bgColor := none, spotColor := none }

set_option maxRecDepth 100000 in
/-- C8: with `size = 0` the source raises no configuration error: the
run completes silently with a zero-byte sample buffer, and the engine
state shows that the six color draws still happened (the state after the
call differs from the state right after seed folding). -/
theorem c8_size_zero_completes_silently :
    (createBuffer c8Opts [] initProcState).1.size = 0 ∧
    (createBuffer c8Opts [] initProcState).2.randseed
      ≠ createRandSeed [97] initProcState.randseed := by
  constructor
  · decide
  · decide
